import Mathlib

/-!
Verification of the 1mcp aggregating MCP proxy.

The development shallowly embeds the parts of the TypeScript source that the
verified properties are about:

* `PrefixUtility.addPrefix` / `PrefixUtility.removePrefix` and the load-time
  server-name validation (`src/CapabilityRegistry.ts`, `src/ConfigLoader.ts`);
* the three capability sub-registries (`ToolRegistry`, `ResourceRegistry`,
  `PromptRegistry` in `src/CapabilityRegistry.ts`), which are structural
  clones of one another and are embedded as one parametric `Registry`;
* the request router (`RequestRouter.routeToolCall` / `handleToolCall`);
* the two tools/call upstream-forwarding handlers (`McpHubServer` and the
  `McpHub` in `main.ts`);
* the `/mcp` streamable-HTTP session handler in `main.ts`;
* `BaseConnector.discoverCapabilities` and its three category helpers;
* `UpstreamManager.scheduleReconnection` and the timer callback.

JavaScript strings are modeled as `List Char`; a JavaScript `Map` (which the
source never overwrites, so insertion order is append order) is modeled as an
association list in insertion order, and a JavaScript `Set` as a duplicate-free
list in insertion order.
-/

namespace OneMcp

/-- JavaScript strings are modeled as lists of characters. -/
abbrev Chars := List Char

/-! ## JavaScript `Map` / `Set` primitives on association lists -/

/-- `Map.get` / `Map.has`: first binding of a key in an association list. -/
def alookup {β : Type} : List (Chars × β) → Chars → Option β
  | [], _ => none
  | (k, v) :: rest, key => if k = key then some v else alookup rest key

/-- `Map.delete`: remove the binding of a key (the first one; keys are unique
in every state the source builds). -/
def aerase {β : Type} : List (Chars × β) → Chars → List (Chars × β)
  | [], _ => []
  | (k, v) :: rest, key => if k = key then rest else (k, v) :: aerase rest key

/-- `Map.set`: replace the value in place if the key is present, otherwise
append the new binding (JavaScript `Map` preserves insertion order). -/
def aset {β : Type} : List (Chars × β) → Chars → β → List (Chars × β)
  | [], key, val => [(key, val)]
  | (k, v) :: rest, key, val =>
      if k = key then (k, val) :: rest else (k, v) :: aset rest key val

/-- `Set.add`: append the element unless it is already present. -/
def setAdd (names : List Chars) (p : Chars) : List Chars :=
  if p ∈ names then names else names ++ [p]

/-- A `Map` state has each key bound at most once. -/
def NodupKeys {β : Type} (m : List (Chars × β)) : Prop :=
  (m.map Prod.fst).Nodup

/-! ## Prefix utility (`PrefixUtility` in `src/CapabilityRegistry.ts`) -/

/-- The separator `PrefixUtility.SEPARATOR = "___"`. -/
def SEPARATOR : Chars := ['_', '_', '_']

/-- Index of the first occurrence of `SEPARATOR`, as
`prefixedName.indexOf(PrefixUtility.SEPARATOR)` computes it; `none` models the
return value `-1`. -/
def findSep : Chars → Option Nat
  | [] => none
  | c :: rest =>
      if (c :: rest).take 3 = SEPARATOR then some 0
      else (findSep rest).map (· + 1)

/-- `PrefixUtility.addPrefix(serverName, name)`. -/
def addPrefix (serverName name : Chars) : Chars :=
  serverName ++ SEPARATOR ++ name

/-- `PrefixUtility.removePrefix(prefixedName)`: split at the first occurrence
of the separator; `none` when there is no separator or either half is the
empty (falsy) string. -/
def removePrefix (prefixedName : Chars) : Option (Chars × Chars) :=
  match findSep prefixedName with
  | none => none
  | some i =>
      let serverName := prefixedName.take i
      let originalName := prefixedName.drop (i + SEPARATOR.length)
      if serverName = [] ∨ originalName = [] then none
      else some (serverName, originalName)

/-- A character allowed by the load-time name pattern `[a-zA-Z0-9_-]`. -/
def isNameChar (c : Char) : Bool :=
  (('a' ≤ c && c ≤ 'z') || ('A' ≤ c && c ≤ 'Z') || ('0' ≤ c && c ≤ '9')
    || c = '_' || c = '-')

/-- Load-time validity of an upstream server name, from
`ConfigLoader.validateServerName`: non-empty, every character matches
`[a-zA-Z0-9_-]`, and the name does not contain the separator `___`. -/
def validServerName (s : Chars) : Prop :=
  s ≠ [] ∧ s.all isNameChar = true ∧ findSep s = none

instance (s : Chars) : Decidable (validServerName s) := by
  unfold validServerName; infer_instance

/-! ## Capability registry (`src/CapabilityRegistry.ts`)

`ToolRegistry`, `ResourceRegistry` and `PromptRegistry` are structural clones:
each keeps a forward map from prefixed id to the registered record and a
reverse index from server name to the set of prefixed ids it owns, and their
register / clear / count methods are textually identical up to field names.
They are embedded once, parametrically in the payload `π` — the fields the
registry copies verbatim (`...tool` spread: description, schema, MIME type,
argument descriptors) and never inspects. -/

/-- A registered capability record: the spread of the advertised capability
(`payload`) plus `serverName`, `originalName` (= `originalUri` for resources)
and `prefixedName` (= `prefixedUri`). -/
structure RegEntry (π : Type) where
  serverName : Chars
  originalName : Chars
  prefixedName : Chars
  payload : π
deriving DecidableEq

/-- State of one sub-registry: `tools` / `resources` / `prompts` forward map
and the `serverTools` / `serverResources` / `serverPrompts` reverse index. -/
structure Registry (π : Type) where
  entries : List (Chars × RegEntry π)
  serverIndex : List (Chars × List Chars)
deriving DecidableEq

/-- The freshly constructed registry: both maps empty. -/
def Registry.empty {π : Type} : Registry π := ⟨[], []⟩

/-- `clearServerTools` (= `clearServerResources` = `clearServerPrompts`):
delete every prefixed id in the server's reverse-index set from the forward
map, then delete the reverse-index entry itself. -/
def clearServerCaps {π : Type} (st : Registry π) (serverName : Chars) :
    Registry π :=
  match alookup st.serverIndex serverName with
  | none => st
  | some names =>
      { entries := names.foldl (fun m p => aerase m p) st.entries
        serverIndex := aerase st.serverIndex serverName }

/-- The `for (const tool of tools)` loop body of `registerTools` (and its
resource / prompt clones): prefix the name; if the forward map already has the
prefixed id, warn and skip; otherwise insert the registered record and add the
id to the set of names registered by this call. -/
def registerLoop {π : Type} (serverName : Chars) :
    List (Chars × π) → List (Chars × RegEntry π) → List Chars →
      List (Chars × RegEntry π) × List Chars
  | [], entries, names => (entries, names)
  | (n, pl) :: caps, entries, names =>
      let p := addPrefix serverName n
      match alookup entries p with
      | some _ => registerLoop serverName caps entries names
      | none =>
          registerLoop serverName caps
            (aset entries p ⟨serverName, n, p, pl⟩) (setAdd names p)

/-- `registerTools(serverName, tools)` (and its resource / prompt clones):
clear the server's previous entries, run the insertion loop, and record the
names actually inserted as the server's reverse-index set. -/
def registerCaps {π : Type} (st : Registry π) (serverName : Chars)
    (caps : List (Chars × π)) : Registry π :=
  let st1 := clearServerCaps st serverName
  let r := registerLoop serverName caps st1.entries []
  { entries := r.1, serverIndex := aset st1.serverIndex serverName r.2 }

/-- `getServerToolCount` (and clones): the size of the server's reverse-index
set, `0` when the server has none. -/
def getServerCapCount {π : Type} (st : Registry π) (serverName : Chars) :
    Nat :=
  match alookup st.serverIndex serverName with
  | none => 0
  | some names => names.length

/-- Payload of a tool record: the fields of `MCPTool` other than `name`
(`title`, `description` and the parameter schema, kept as uninterpreted
text since the registry never inspects them). -/
structure ToolPayload where
  title : Option Chars
  description : Chars
  parameters : Chars
deriving DecidableEq

/-- Payload of a resource record: the fields of `MCPResource` other than
`uri` (the registry keys resources by their URI). -/
structure ResourcePayload where
  name : Chars
  description : Option Chars
  mimeType : Option Chars
deriving DecidableEq

/-- Payload of a prompt record: the fields of `MCPPrompt` other than `name`
(description and argument descriptors `(name, description, required)`). -/
structure PromptPayload where
  description : Option Chars
  arguments : List (Chars × Option Chars × Bool)
deriving DecidableEq

/-- `ToolRegistry.registerTools`. -/
def registerTools : Registry ToolPayload → Chars → List (Chars × ToolPayload) →
    Registry ToolPayload := registerCaps

/-- `ResourceRegistry.registerResources` (capabilities keyed by URI). -/
def registerResources : Registry ResourcePayload → Chars →
    List (Chars × ResourcePayload) → Registry ResourcePayload := registerCaps

/-- `PromptRegistry.registerPrompts`. -/
def registerPrompts : Registry PromptPayload → Chars →
    List (Chars × PromptPayload) → Registry PromptPayload := registerCaps

/-- `ToolRegistry.getServerToolCount`. -/
def getServerToolCount : Registry ToolPayload → Chars → Nat :=
  getServerCapCount

/-- The record the loop inserts for the first element of the capability list
whose prefixed id is `p` — `none` when no element of the list prefixes to
`p`. This is the value the claims compare registry lookups against. -/
def firstCap {π : Type} (serverName : Chars) :
    List (Chars × π) → Chars → Option (RegEntry π)
  | [], _ => none
  | (n, pl) :: caps, p =>
      if addPrefix serverName n = p then some ⟨serverName, n, p, pl⟩
      else firstCap serverName caps p

/-- The sub-list of records the loop actually inserts (in insertion order)
when run on a forward map `E`: an element is skipped when its prefixed id is
already bound (by an earlier element of the same call or by a surviving entry
of another server). -/
def newEntries {π : Type} (serverName : Chars) :
    List (Chars × π) → List (Chars × RegEntry π) → List (Chars × RegEntry π)
  | [], _ => []
  | (n, pl) :: caps, E =>
      let p := addPrefix serverName n
      match alookup E p with
      | some _ => newEntries serverName caps E
      | none =>
          (p, ⟨serverName, n, p, pl⟩) ::
            newEntries serverName caps (aset E p ⟨serverName, n, p, pl⟩)

/-- A sample tool payload for concrete witness computations. -/
def sampleToolPayload : ToolPayload :=
  ⟨none, "first tool".data, []⟩

/-- A second, distinct sample tool payload. -/
def sampleToolPayload2 : ToolPayload :=
  ⟨none, "second tool".data, []⟩

/-- A sample resource payload for concrete witness computations. -/
def sampleResourcePayload : ResourcePayload :=
  ⟨"a resource".data, none, none⟩

/-- A sample prompt payload for concrete witness computations. -/
def samplePromptPayload : PromptPayload :=
  ⟨none, []⟩

/-- Well-formedness of a registry state, as every state reachable by the
source maintains it: unique map keys, every record is indexed under its
owner, and every indexed id is owned by the server that indexes it. -/
structure WF {π : Type} (st : Registry π) : Prop where
  entriesNodup : NodupKeys st.entries
  indexNodup : NodupKeys st.serverIndex
  ownerListed : ∀ p r, alookup st.entries p = some r →
    ∃ ns, alookup st.serverIndex r.serverName = some ns ∧ p ∈ ns
  listedOwner : ∀ v ns p r, alookup st.serverIndex v = some ns → p ∈ ns →
    alookup st.entries p = some r → r.serverName = v

/-! ## JSON values (results exchanged with upstreams) -/

/-- A JSON value; `null` also stands for an absent (`undefined`) result.
Numbers are modeled as integers (the source never computes with them). -/
inductive Json where
  | null
  | bool (b : Bool)
  | num (n : Int)
  | str (s : Chars)
  | arr (elements : List Json)
  | obj (fields : List (Chars × Json))

/-- Field access on a JSON object; `none` on non-objects and missing keys. -/
def jsonField (j : Json) (key : Chars) : Option Json :=
  match j with
  | Json.obj fields => alookup fields key
  | _ => none

/-- Escaping of one character inside a JSON string literal, as
`JSON.stringify` performs it (other control characters do not occur in the
values the source builds). -/
def escapeJsonChar (c : Char) : Chars :=
  if c = '"' then ['\\', '"']
  else if c = '\\' then ['\\', '\\']
  else if c = '\n' then ['\\', 'n']
  else if c = '\t' then ['\\', 't']
  else if c = '\r' then ['\\', 'r']
  else [c]

/-- Escaping of a whole JSON string body. -/
def escapeJsonString (s : Chars) : Chars :=
  s.foldr (fun c acc => escapeJsonChar c ++ acc) []

mutual

/-- `JSON.stringify` (no spacing argument, as the source calls it). -/
def stringifyJson : Json → Chars
  | Json.null => "null".data
  | Json.bool true => "true".data
  | Json.bool false => "false".data
  | Json.num n => (toString n).data
  | Json.str s => '"' :: (escapeJsonString s ++ ['"'])
  | Json.arr elements => '[' :: (stringifyArr elements ++ [']'])
  | Json.obj fields => '\x7b' :: (stringifyObj fields ++ ['\x7d'])

/-- Comma-separated serialization of array elements. -/
def stringifyArr : List Json → Chars
  | [] => []
  | [j] => stringifyJson j
  | j :: rest => stringifyJson j ++ ',' :: stringifyArr rest

/-- Comma-separated serialization of object members. -/
def stringifyObj : List (Chars × Json) → Chars
  | [] => []
  | [(k, j)] => '"' :: escapeJsonString k ++ '"' :: ':' :: stringifyJson j
  | (k, j) :: rest =>
      ('"' :: escapeJsonString k ++ '"' :: ':' :: stringifyJson j)
        ++ ',' :: stringifyObj rest

end

/-! ## Request router (`RequestRouter` and the routing helpers of `McpHub`) -/

/-- The routing environment a tools/call resolution reads: the tool registry
and, for each configured upstream name, whether its connector reports
`isConnected()` (`alookup _ = none` models `getConnector` returning
`undefined`). -/
structure RouterEnv (π : Type) where
  registry : Registry π
  connectors : List (Chars × Bool)

/-- `RequestRouter.routeToolCall(prefixedName)`: parse the prefix, look the
tool up in the registry, locate the connector, require it connected; `none`
on any failure. The returned pair is the `serverName` / `originalName` of the
`RouteInfo` (the connector object itself is identified by the server name). -/
def routeToolCall {π : Type} (env : RouterEnv π) (prefixedName : Chars) :
    Option (Chars × Chars) :=
  match removePrefix prefixedName with
  | none => none
  | some (serverName, originalName) =>
      match alookup env.registry.entries prefixedName with
      | none => none
      | some _ =>
          match alookup env.connectors serverName with
          | none => none
          | some isConn =>
              if isConn then some (serverName, originalName) else none

/-- The message of the single not-found error `handleToolCall` produces. -/
def toolNotFoundMessage (prefixedName : Chars) : Chars :=
  "Tool not found or server unavailable: ".data ++ prefixedName

/-- Outcome of `RequestRouter.handleToolCall` up to the forwarding step:
either a JSON-RPC error reply or the request is forwarded upstream with the
unprefixed name. -/
inductive RouteOutcome where
  | rpcError (code : Int) (message : Chars)
  | forwarded (serverName originalName : Chars)
deriving DecidableEq

/-- The routing part of `RequestRouter.handleToolCall(request)`: a `null`
route yields the error `-32601` with `toolNotFoundMessage`; otherwise the
call is forwarded with the original name. (The preceding `-32602`
missing-name check is `handleToolCallRequest` below.) -/
def handleToolCall {π : Type} (env : RouterEnv π) (prefixedName : Chars) :
    RouteOutcome :=
  match routeToolCall env prefixedName with
  | none => RouteOutcome.rpcError (-32601) (toolNotFoundMessage prefixedName)
  | some (serverName, originalName) =>
      RouteOutcome.forwarded serverName originalName

/-- `RequestRouter.handleToolCall` including the parameter check: a missing
(or non-string, modeled as absent) `name` yields `-32602`. -/
def handleToolCallRequest {π : Type} (env : RouterEnv π)
    (nameParam : Option Chars) : RouteOutcome :=
  match nameParam with
  | none =>
      RouteOutcome.rpcError (-32602)
        ("Invalid params: tool name is required".data)
  | some prefixedName => handleToolCall env prefixedName

/-! ## Upstream forwarding of tools/call (`McpHubServer` vs `main.ts`) -/

/-- Settlement of the promise returned by `connector.sendMessage` /
`upstreamManager.routeMessage`: it resolves with a response or rejects with
an error message (transport failure, timeout, connection closed). -/
inductive SendOutcome (α : Type) where
  | ok (response : α)
  | fail (message : Chars)

/-- An upstream `MCPResponse`: the `result` member (`Json.null` models an
absent result) and the optional `error` member `(code, message)`. -/
structure MCPResponseM where
  result : Json
  error : Option (Int × Chars)

/-- The check `response.result && typeof response.result === 'object' &&
'content' in response.result`: only a non-null object with a `content`
member passes (arrays and primitives do not). -/
def jsonHasContentField : Json → Bool
  | Json.obj fields => (alookup fields ("content".data)).isSome
  | _ => false

/-- A `{type: "text", text: ...}` content item. -/
def textContentJson (text : Chars) : Json :=
  Json.obj [("type".data, Json.str ("text".data)),
            ("text".data, Json.str text)]

/-- The `Upstream error: <msg>` text. -/
def upstreamErrorText (message : Chars) : Chars :=
  "Upstream error: ".data ++ message

/-- The `{isError: true, content: [{type:"text", text:"Upstream error: <msg>"}]}`
result object. -/
def upstreamErrorResult (message : Chars) : Json :=
  Json.obj [("isError".data, Json.bool true),
            ("content".data, Json.arr [textContentJson
              (upstreamErrorText message)])]

/-- The forwarding tail of the `McpHubServer` CallToolRequestSchema handler
(and of its HTTP-mode `handleToolCall`): on a resolved response, pass
`response.result` through when it carries `content`, otherwise wrap the
JSON-encoded result in one text item; on a rejected send, return the
`isError` result object — the handler does not throw here, so the value is
always `Except.ok`. -/
def mcpHubServerToolForward (send : SendOutcome MCPResponseM) :
    Except Chars Json :=
  match send with
  | SendOutcome.ok resp =>
      if jsonHasContentField resp.result then Except.ok resp.result
      else
        Except.ok (Json.obj [("content".data,
          Json.arr [textContentJson (stringifyJson resp.result)])])
  | SendOutcome.fail message => Except.ok (upstreamErrorResult message)

/-- The forwarding tail of the `McpHub` CallToolRequestSchema handler in
`main.ts` (and of `copyRequestHandlers`): there is no try/catch, so a
rejected send propagates out of the handler (`Except.error`), and a response
carrying `error` is re-thrown as `new Error(response.error.message)`;
otherwise `response.result` is returned. -/
def mcpHubToolForward (send : SendOutcome MCPResponseM) :
    Except Chars Json :=
  match send with
  | SendOutcome.fail message => Except.error message
  | SendOutcome.ok resp =>
      match resp.error with
      | some e => Except.error e.2
      | none => Except.ok resp.result

/-! ## Streamable-HTTP session layer (`McpHub.startStreamableHttp`) -/

/-- HTTP request methods the `/mcp` handler distinguishes (`app.all`). -/
inductive HttpMethod where
  | get
  | post
  | options
deriving DecidableEq

/-- An incoming `/mcp` request: its method, the `mcp-session-id` header
(`none` when absent) and the JSON-RPC method of its body — which the handler
never reads (`isInitializeRequest` is a header-only heuristic). -/
structure HttpRequestM where
  method : HttpMethod
  sessionIdHeader : Option Chars
  bodyMethod : Chars
deriving DecidableEq

/-- `McpHub.isInitializeRequest(req)`: `req.method === 'POST' &&
!req.headers['mcp-session-id']` — the body is not consulted. -/
def isInitReq (req : HttpRequestM) : Bool :=
  req.method == HttpMethod.post && req.sessionIdHeader.isNone

/-- The handler's reply: delegated to the session transport, or the
400 / JSON-RPC `-32602` invalid-session reply. -/
inductive McpHttpResponse where
  | handled (sessionId : Chars)
  | invalidSession (code : Int) (message : Chars)
deriving DecidableEq

/-- The `Invalid session ID: <id>` message. -/
def invalidSessionMessage (sessionId : Chars) : Chars :=
  "Invalid session ID: ".data ++ sessionId

/-- Observable outcome of one `/mcp` request: the reply, the session table
(`activeConnections` keys — transports, servers and activity timestamps are
elided) afterwards, the id of the session this request created (if any) and
the `mcp-session-id` response header. -/
structure McpHandlerResult where
  response : McpHttpResponse
  sessions : List Chars
  newSession : Option Chars
  responseSessionHeader : Option Chars
deriving DecidableEq

/-- The `app.all('/mcp', ...)` handler: read the session header; treat the
request as a new session when the header is absent or `isInitializeRequest`
holds (which also requires the header absent); a new session gets the fresh
id (`Math.random...`, modeled as the `freshId` argument), is stored in the
table and echoed in the response header; then the session is looked up and
the request is delegated to its transport, or the `-32602` invalid-session
reply is produced when the id is unknown. -/
def handleMcpEndpoint (table : List Chars) (freshId : Chars)
    (req : HttpRequestM) : McpHandlerResult :=
  let sessionId0 := req.sessionIdHeader
  let isNewSession := sessionId0.isNone || isInitReq req
  let sid := if isNewSession then freshId else sessionId0.getD []
  let table1 := if isNewSession then setAdd table freshId else table
  let created := if isNewSession then some freshId else none
  let headerOut := if isNewSession then some freshId else none
  if sid ∈ table1 then
    { response := McpHttpResponse.handled sid
      sessions := table1
      newSession := created
      responseSessionHeader := headerOut }
  else
    { response := McpHttpResponse.invalidSession (-32602)
        (invalidSessionMessage sid)
      sessions := table1
      newSession := created
      responseSessionHeader := headerOut }

/-! ## Capability discovery (`BaseConnector.discoverCapabilities`) -/

/-- A raw tool entry as delivered by an upstream `tools/list` result
(`toolsResponse.result?.tools || []`); the schema objects stay JSON. -/
structure RawTool where
  name : Chars
  title : Option Chars
  description : Chars
  inputSchema : Option Json
  parameters : Option Json

/-- A normalized `MCPTool` as `discoverTools` produces it. -/
structure MCPToolM where
  name : Chars
  title : Chars
  description : Chars
  parameters : Json

/-- An `MCPResource` (`resourcesResponse.result?.resources || []` is used
unnormalized). -/
structure MCPResourceM where
  uri : Chars
  name : Chars
  description : Option Chars
  mimeType : Option Chars
deriving DecidableEq

/-- A raw prompt entry of a `prompts/list` result. -/
structure RawPrompt where
  name : Chars
  description : Option Chars
  arguments : Option (List (Chars × Option Chars × Bool))
deriving DecidableEq

/-- A normalized `MCPPrompt` (`arguments` defaulted to `[]`). -/
structure MCPPromptM where
  name : Chars
  description : Option Chars
  arguments : List (Chars × Option Chars × Bool)
deriving DecidableEq

/-- The schema normalization of `discoverTools`: an `inputSchema` becomes
`{type:"object", properties, required}` with defaults, an existing
`parameters` is kept, otherwise the empty object schema is used; `title`
defaults to the tool name. -/
def normalizeTool (t : RawTool) : MCPToolM :=
  let parameters :=
    match t.inputSchema with
    | some schema =>
        Json.obj [("type".data, Json.str ("object".data)),
          ("properties".data, (jsonField schema ("properties".data)).getD
            (Json.obj [])),
          ("required".data, (jsonField schema ("required".data)).getD
            (Json.arr []))]
    | none =>
        match t.parameters with
        | some ps => ps
        | none =>
            Json.obj [("type".data, Json.str ("object".data)),
              ("properties".data, Json.obj []),
              ("required".data, Json.arr [])]
  { name := t.name, title := (t.title.getD t.name),
    description := t.description, parameters := parameters }

/-- `discoverTools`: a failed `tools/list` request is re-thrown as
`Failed to discover tools: <e>`; a successful one yields the normalized
tools. -/
def discoverToolsM (send : SendOutcome (List RawTool)) :
    Except Chars (List MCPToolM) :=
  match send with
  | SendOutcome.fail e =>
      Except.error ("Failed to discover tools: ".data ++ e)
  | SendOutcome.ok rawTools => Except.ok (rawTools.map normalizeTool)

/-- `discoverResources`: its own try/catch turns any failure into the empty
list (the server simply does not support resources). -/
def discoverResourcesM (send : SendOutcome (List MCPResourceM)) :
    Except Chars (List MCPResourceM) :=
  match send with
  | SendOutcome.fail _ => Except.ok []
  | SendOutcome.ok resources => Except.ok resources

/-- `discoverPrompts`: like resources, failures yield the empty list;
successful entries get their `arguments` defaulted. -/
def discoverPromptsM (send : SendOutcome (List RawPrompt)) :
    Except Chars (List MCPPromptM) :=
  match send with
  | SendOutcome.fail _ => Except.ok []
  | SendOutcome.ok rawPrompts =>
      Except.ok (rawPrompts.map fun p =>
        ⟨p.name, p.description, p.arguments.getD []⟩)

/-- The value `Promise.allSettled` extracts from one settled category:
the discovered list when fulfilled, the empty list when rejected. -/
def settledList {α : Type} (r : Except Chars (List α)) : List α :=
  match r with
  | Except.ok v => v
  | Except.error _ => []

/-- The settled discovery result. -/
structure DiscoveredCapabilities where
  tools : List MCPToolM
  resources : List MCPResourceM
  prompts : List MCPPromptM

/-- `BaseConnector.discoverCapabilities`: the three category helpers run on
their own request outcomes and `Promise.allSettled` waits for all three, so
the result is assembled from all three settled values — a rejected category
contributes its empty list and never fails the whole discovery. -/
def discoverCapabilitiesM (toolsSend : SendOutcome (List RawTool))
    (resourcesSend : SendOutcome (List MCPResourceM))
    (promptsSend : SendOutcome (List RawPrompt)) : DiscoveredCapabilities :=
  { tools := settledList (discoverToolsM toolsSend)
    resources := settledList (discoverResourcesM resourcesSend)
    prompts := settledList (discoverPromptsM promptsSend) }

/-! ## Reconnection scheduling (`UpstreamManager.scheduleReconnection`) -/

/-- Removal of the first occurrence of a name (`Map.delete` on key lists). -/
def listErase : List Chars → Chars → List Chars
  | [], _ => []
  | c :: rest, x => if c = x then rest else c :: listErase rest x

/-- Occurrence count of a name in a key list. -/
def countOcc : List Chars → Chars → Nat
  | [], _ => 0
  | c :: rest, x => (if c = x then 1 else 0) + countOcc rest x

/-- The manager state the reconnection logic reads: the key sets of the
`connectors`, `connections` and `reconnectTimeouts` maps. -/
structure ManagerState where
  connectors : List Chars
  connections : List Chars
  reconnectTimeouts : List Chars
deriving DecidableEq

/-- `scheduleReconnection(name)`: a no-op when a timer for the upstream is
already pending, otherwise record the new pending timer. -/
def scheduleReconnection (st : ManagerState) (name : Chars) : ManagerState :=
  if name ∈ st.reconnectTimeouts then st
  else { st with reconnectTimeouts := st.reconnectTimeouts ++ [name] }

/-- What the timer callback decides to do. -/
inductive ReconnectAction where
  | attemptConnect (name : Chars)
  | skipRemoved
deriving DecidableEq

/-- The `setTimeout` callback of `scheduleReconnection`: first delete the
pending-timer entry, then check that the upstream still exists in both
manager tables — if it was removed in the meantime, skip silently, otherwise
proceed to `connectServer(name)`. -/
def fireReconnectTimer (st : ManagerState) (name : Chars) :
    ManagerState × ReconnectAction :=
  let st1 := { st with reconnectTimeouts := listErase st.reconnectTimeouts name }
  if name ∈ st1.connectors ∧ name ∈ st1.connections then
    (st1, ReconnectAction.attemptConnect name)
  else (st1, ReconnectAction.skipRemoved)

/-! ## Association-list lemmas -/

theorem alookup_aset {β : Type} (m : List (Chars × β)) (k : Chars) (v : β)
    (key : Chars) :
    alookup (aset m k v) key = if k = key then some v else alookup m key := by
  induction m with
  | nil => simp [aset, alookup]
  | cons kv rest ih =>
      obtain ⟨k0, v0⟩ := kv
      by_cases h : k0 = k
      · subst h
        by_cases h2 : k0 = key <;> simp [aset, alookup, h2]
      · by_cases h2 : k0 = key
        · subst h2
          have hk : ¬(k = k0) := fun hh => h hh.symm
          simp [aset, alookup, h, hk]
        · simp [aset, alookup, h, h2, ih]

theorem aset_fresh {β : Type} (m : List (Chars × β)) (k : Chars) (v : β)
    (h : alookup m k = none) : aset m k v = m ++ [(k, v)] := by
  induction m with
  | nil => simp [aset]
  | cons kv rest ih =>
      obtain ⟨k0, v0⟩ := kv
      by_cases h0 : k0 = k
      · subst h0; simp [alookup] at h
      · simp only [alookup, if_neg h0] at h
        simp [aset, h0, ih h]

theorem alookup_eq_none_iff {β : Type} (m : List (Chars × β)) (key : Chars) :
    alookup m key = none ↔ key ∉ m.map Prod.fst := by
  induction m with
  | nil => simp [alookup]
  | cons kv rest ih =>
      obtain ⟨k0, v0⟩ := kv
      simp only [List.map_cons, List.mem_cons, alookup]
      by_cases h0 : k0 = key
      · subst h0
        rw [if_pos rfl]
        constructor
        · intro h; exact Option.noConfusion h
        · intro h; exact absurd (Or.inl rfl) h
      · have hk : ¬(key = k0) := fun hh => h0 hh.symm
        rw [if_neg h0, ih]
        constructor
        · intro h hmem
          rcases hmem with h1 | h2
          · exact hk h1
          · exact h h2
        · intro h hmem; exact h (Or.inr hmem)

theorem aerase_sublist {β : Type} (m : List (Chars × β)) (k : Chars) :
    (aerase m k).Sublist m := by
  induction m with
  | nil => simp [aerase]
  | cons kv rest ih =>
      obtain ⟨k0, v0⟩ := kv
      by_cases h0 : k0 = k
      · rw [aerase, if_pos h0]
        exact List.sublist_cons_self _ _
      · rw [aerase, if_neg h0]
        exact ih.cons₂ _

theorem nodupKeys_aerase {β : Type} (m : List (Chars × β)) (k : Chars)
    (h : NodupKeys m) : NodupKeys (aerase m k) :=
  h.sublist ((aerase_sublist m k).map Prod.fst)

theorem alookup_aerase {β : Type} (m : List (Chars × β)) (k : Chars)
    (key : Chars) (hnd : NodupKeys m) :
    alookup (aerase m k) key = if key = k then none else alookup m key := by
  induction m with
  | nil => simp [aerase, alookup]
  | cons kv rest ih =>
      obtain ⟨k0, v0⟩ := kv
      have hnd2 : k0 ∉ rest.map Prod.fst ∧ (rest.map Prod.fst).Nodup := by
        have h' : (k0 :: rest.map Prod.fst).Nodup := by
          simpa only [NodupKeys, List.map_cons] using hnd
        exact List.nodup_cons.mp h'
      have hnd' : NodupKeys rest := hnd2.2
      by_cases h0 : k0 = k
      · subst h0
        rw [aerase, if_pos rfl]
        by_cases h1 : key = k0
        · subst h1
          rw [if_pos rfl]
          exact (alookup_eq_none_iff rest key).mpr hnd2.1
        · have hk : ¬(k0 = key) := fun hh => h1 hh.symm
          simp [alookup, h1, hk]
      · rw [aerase, if_neg h0]
        by_cases h1 : key = k0
        · subst h1
          have hk : ¬(key = k) := fun hh => h0 (hh ▸ rfl)
          simp [alookup, hk]
        · have hk : ¬(k0 = key) := fun hh => h1 hh.symm
          simp [alookup, hk, ih hnd']

theorem aerase_of_absent {β : Type} (m : List (Chars × β)) (k : Chars)
    (h : alookup m k = none) : aerase m k = m := by
  induction m with
  | nil => simp [aerase]
  | cons kv rest ih =>
      obtain ⟨k0, v0⟩ := kv
      by_cases h0 : k0 = k
      · subst h0; simp [alookup] at h
      · simp only [alookup, if_neg h0] at h
        simp [aerase, h0, ih h]

theorem aerase_append_of_absent {β : Type} (m₁ m₂ : List (Chars × β))
    (k : Chars) (v : β) (h : alookup m₁ k = none) :
    aerase (m₁ ++ (k, v) :: m₂) k = m₁ ++ m₂ := by
  induction m₁ with
  | nil => simp [aerase]
  | cons kv rest ih =>
      obtain ⟨k0, v0⟩ := kv
      by_cases h0 : k0 = k
      · subst h0; simp [alookup] at h
      · simp only [alookup, if_neg h0] at h
        simp [aerase, h0, ih h]

theorem alookup_append_left {β : Type} (m₁ m₂ : List (Chars × β))
    (key : Chars) (v : β) (h : alookup m₁ key = some v) :
    alookup (m₁ ++ m₂) key = some v := by
  induction m₁ with
  | nil => simp [alookup] at h
  | cons kv rest ih =>
      obtain ⟨k0, v0⟩ := kv
      by_cases h0 : k0 = key
      · simp only [alookup, if_pos h0] at h
        simp [alookup, h0, h]
      · simp only [alookup, if_neg h0] at h
        simp [alookup, h0, ih h]

theorem alookup_append_right {β : Type} (m₁ m₂ : List (Chars × β))
    (key : Chars) (h : alookup m₁ key = none) :
    alookup (m₁ ++ m₂) key = alookup m₂ key := by
  induction m₁ with
  | nil => simp
  | cons kv rest ih =>
      obtain ⟨k0, v0⟩ := kv
      by_cases h0 : k0 = key
      · simp only [alookup, if_pos h0] at h
        exact Option.noConfusion h
      · simp only [alookup, if_neg h0] at h
        simp [alookup, h0, ih h]

theorem alookup_foldl_aerase {β : Type} (names : List Chars)
    (m : List (Chars × β)) (key : Chars) (hnd : NodupKeys m) :
    alookup (names.foldl (fun acc p => aerase acc p) m) key =
      if key ∈ names then none else alookup m key := by
  induction names generalizing m with
  | nil => simp
  | cons q names ih =>
      have hnd' : NodupKeys (aerase m q) := nodupKeys_aerase m q hnd
      by_cases hq : key = q
      · subst hq
        rw [List.foldl_cons, ih _ hnd', alookup_aerase m key key hnd,
          if_pos rfl]
        simp
      · rw [List.foldl_cons, ih _ hnd', alookup_aerase m q key hnd,
          if_neg hq]
        by_cases hmem : key ∈ names <;>
          simp [List.mem_cons, hq, hmem]

theorem setAdd_of_absent (names : List Chars) (p : Chars) (h : p ∉ names) :
    setAdd names p = names ++ [p] := by
  simp [setAdd, h]

theorem mem_setAdd_self (names : List Chars) (p : Chars) :
    p ∈ setAdd names p := by
  by_cases h : p ∈ names <;> simp [setAdd, h]

/-! ## C1: the prefix round trip -/

theorem findSep_cons_eq_none {c : Char} {s : Chars}
    (h : findSep (c :: s) = none) : findSep s = none := by
  rw [findSep] at h
  by_cases h3 : (c :: s).take 3 = SEPARATOR
  · rw [if_pos h3] at h; exact Option.noConfusion h
  · rw [if_neg h3] at h
    cases hfs : findSep s with
    | none => rfl
    | some i => rw [hfs] at h; exact Option.noConfusion h

theorem findSep_addPrefix (s n : Chars) (hs : findSep s = none)
    (hlast : s.getLast? ≠ some '_') :
    findSep (s ++ SEPARATOR ++ n) = some s.length := by
  induction s with
  | nil =>
      simp only [List.nil_append, List.length_nil]
      rw [SEPARATOR, List.cons_append, findSep]
      simp [SEPARATOR]
  | cons c s ih =>
      have hs' : findSep s = none := findSep_cons_eq_none hs
      have hlast' : s.getLast? ≠ some '_' := by
        cases s with
        | nil => simp
        | cons d s' =>
            rw [List.getLast?_cons_cons] at hlast
            exact hlast
      have hcond : ¬((c :: (s ++ SEPARATOR ++ n)).take 3 = SEPARATOR) := by
        cases s with
        | nil =>
            intro hEq
            rw [SEPARATOR] at hEq
            simp only [List.nil_append, List.cons_append, List.take,
              List.cons.injEq, and_true] at hEq
            apply hlast
            rw [hEq]
            rfl
        | cons d s' =>
            cases s' with
            | nil =>
                intro hEq
                rw [SEPARATOR] at hEq
                simp only [List.cons_append, List.nil_append,
                  List.take, List.cons.injEq, and_true] at hEq
                apply hlast
                rw [List.getLast?_cons_cons, hEq.2]
                rfl
            | cons e s'' =>
                intro hEq
                rw [SEPARATOR] at hEq
                simp only [List.cons_append, List.take,
                  List.cons.injEq, and_true] at hEq
                rw [findSep] at hs
                have h3 : (c :: d :: e :: s'').take 3 = SEPARATOR := by
                  rw [SEPARATOR]
                  simp [List.take, hEq.1, hEq.2.1, hEq.2.2]
                rw [if_pos h3] at hs
                exact Option.noConfusion hs
      have hrec := ih hs' hlast'
      calc findSep ((c :: s) ++ SEPARATOR ++ n)
          = findSep (c :: (s ++ SEPARATOR ++ n)) := by
            simp [List.cons_append]
        _ = some (s.length + 1) := by
            rw [findSep, if_neg hcond, hrec]
            rfl
        _ = some ((c :: s).length) := by simp

/-- C1 (amended): for every upstream name `s` that is valid per the
load-time rules and moreover does not end in an underscore, and every
non-empty original id `n` — including ids containing `___` —
`removePrefix (addPrefix s n)` returns the pair `(s, n)`. -/
theorem claim_c1_roundtrip (s n : Chars) (hvalid : validServerName s)
    (hlast : s.getLast? ≠ some '_') (hn : n ≠ []) :
    removePrefix (addPrefix s n) = some (s, n) := by
  obtain ⟨hne, -, hsep⟩ := hvalid
  have hfind := findSep_addPrefix s n hsep hlast
  have htake : (s ++ SEPARATOR ++ n).take s.length = s := by
    rw [List.append_assoc]
    exact List.take_left s (SEPARATOR ++ n)
  have hdrop : (s ++ SEPARATOR ++ n).drop (s.length + SEPARATOR.length) = n := by
    have hlen : (s ++ SEPARATOR).length = s.length + SEPARATOR.length :=
      List.length_append s SEPARATOR
    rw [← hlen]
    exact List.drop_left (s ++ SEPARATOR) n
  rw [removePrefix, addPrefix, hfind]
  simp only [htake, hdrop]
  rw [if_neg]
  intro h
  rcases h with h | h
  · exact hne h
  · exact hn h

/-- C1 witness: the amended round trip at a concrete valid name and an
original id containing the separator. -/
theorem claim_c1_roundtrip_witness :
    validServerName ['a'] ∧
      removePrefix (addPrefix ['a'] ['_', '_', '_', 'b']) =
        some (['a'], ['_', '_', '_', 'b']) :=
  ⟨by decide,
    claim_c1_roundtrip ['a'] ['_', '_', '_', 'b'] (by decide) (by decide)
      (by decide)⟩

/-- C1 counterexample: the name `a_` is valid per the load-time rules
(non-empty, matches `[A-Za-z0-9_-]+`, no `___`), yet
`removePrefix (addPrefix "a_" "b")` splits at the earlier straddling
occurrence of `___` and returns `("a", "_b")`, not `("a_", "b")`; and for
the empty original id the round trip returns absent rather than the pair. -/
theorem claim_c1_counterexample :
    (validServerName ['a', '_'] ∧
      removePrefix (addPrefix ['a', '_'] ['b']) ≠ some (['a', '_'], ['b']) ∧
      removePrefix (addPrefix ['a', '_'] ['b']) = some (['a'], ['_', 'b'])) ∧
    removePrefix (addPrefix ['a'] []) ≠ some (['a'], []) := by
  decide

/-! ## Registry lemmas (C2, C9, C10) -/

theorem wf_empty {π : Type} : WF (Registry.empty : Registry π) := by
  constructor
  · simp [NodupKeys, Registry.empty]
  · simp [NodupKeys, Registry.empty]
  · intro p r h; exact Option.noConfusion h
  · intro v ns p r hv; exact fun _ _ => Option.noConfusion hv

theorem registerLoop_fst_alookup {π : Type} (u : Chars)
    (caps : List (Chars × π)) (E : List (Chars × RegEntry π))
    (N : List Chars) (p : Chars) :
    alookup (registerLoop u caps E N).1 p =
      match alookup E p with
      | some r => some r
      | none => firstCap u caps p := by
  induction caps generalizing E N with
  | nil =>
      cases hE : alookup E p <;> simp [registerLoop, firstCap, hE]
  | cons c caps ih =>
      obtain ⟨n, pl⟩ := c
      cases hE' : alookup E (addPrefix u n) with
      | some w =>
          simp only [registerLoop, hE']
          rw [ih]
          cases hE : alookup E p with
          | some r => rfl
          | none =>
              have hne : ¬(addPrefix u n = p) := by
                intro h; rw [h, hE] at hE'; exact Option.noConfusion hE'
              simp [firstCap, hne]
      | none =>
          simp only [registerLoop, hE']
          rw [ih]
          by_cases hpp : addPrefix u n = p
          · rw [alookup_aset, if_pos hpp, ← hpp, hE']
            simp [firstCap]
          · rw [alookup_aset, if_neg hpp]
            cases hE : alookup E p with
            | some r => rfl
            | none => simp [firstCap, hpp]

theorem registerLoop_spec {π : Type} (u : Chars) (caps : List (Chars × π))
    (E : List (Chars × RegEntry π)) (N : List Chars)
    (hN : ∀ q ∈ N, (alookup E q).isSome = true) :
    registerLoop u caps E N =
      (E ++ newEntries u caps E, N ++ (newEntries u caps E).map Prod.fst) := by
  induction caps generalizing E N with
  | nil => simp [registerLoop, newEntries]
  | cons c caps ih =>
      obtain ⟨n, pl⟩ := c
      cases hE' : alookup E (addPrefix u n) with
      | some w =>
          simp only [registerLoop, newEntries, hE']
          exact ih E N hN
      | none =>
          have hpN : addPrefix u n ∉ N := by
            intro hmem
            have hsome := hN _ hmem
            rw [hE'] at hsome
            exact Bool.noConfusion hsome
          have hset : aset E (addPrefix u n) ⟨u, n, addPrefix u n, pl⟩ =
              E ++ [(addPrefix u n, ⟨u, n, addPrefix u n, pl⟩)] :=
            aset_fresh E _ _ hE'
          have hadd : setAdd N (addPrefix u n) = N ++ [addPrefix u n] :=
            setAdd_of_absent N _ hpN
          have hN' : ∀ q ∈ N ++ [addPrefix u n],
              (alookup (aset E (addPrefix u n) ⟨u, n, addPrefix u n, pl⟩) q).isSome
                = true := by
            intro q hq
            rw [alookup_aset]
            by_cases hq2 : addPrefix u n = q
            · simp [hq2]
            · rw [if_neg hq2]
              rcases List.mem_append.mp hq with h | h
              · exact hN q h
              · simp only [List.mem_singleton] at h
                exact absurd h.symm hq2
          simp only [registerLoop, newEntries, hE']
          rw [hadd, ih _ _ hN', hset]
          simp [List.append_assoc]

theorem newEntries_fresh {π : Type} (u : Chars) (caps : List (Chars × π))
    (E : List (Chars × RegEntry π)) :
    ∀ q ∈ (newEntries u caps E).map Prod.fst, alookup E q = none := by
  induction caps generalizing E with
  | nil => simp [newEntries]
  | cons c caps ih =>
      obtain ⟨n, pl⟩ := c
      cases hE' : alookup E (addPrefix u n) with
      | some w =>
          simp only [newEntries, hE']
          exact ih E
      | none =>
          simp only [newEntries, hE', List.map_cons, List.mem_cons]
          intro q hq
          rcases hq with hq | hq
          · rw [hq]; exact hE'
          · have hq' := ih (aset E (addPrefix u n) ⟨u, n, addPrefix u n, pl⟩) q hq
            rw [alookup_aset] at hq'
            by_cases hpq : addPrefix u n = q
            · rw [if_pos hpq] at hq'; exact Option.noConfusion hq'
            · rw [if_neg hpq] at hq'; exact hq'

theorem newEntries_keys_nodup {π : Type} (u : Chars) (caps : List (Chars × π))
    (E : List (Chars × RegEntry π)) :
    ((newEntries u caps E).map Prod.fst).Nodup := by
  induction caps generalizing E with
  | nil => simp [newEntries]
  | cons c caps ih =>
      obtain ⟨n, pl⟩ := c
      cases hE' : alookup E (addPrefix u n) with
      | some w =>
          simp only [newEntries, hE']
          exact ih E
      | none =>
          simp only [newEntries, hE', List.map_cons]
          rw [List.nodup_cons]
          constructor
          · intro hmem
            have hnone := newEntries_fresh u caps
              (aset E (addPrefix u n) ⟨u, n, addPrefix u n, pl⟩)
              (addPrefix u n) hmem
            rw [alookup_aset, if_pos rfl] at hnone
            exact Option.noConfusion hnone
          · exact ih _

theorem newEntries_mem_iff {π : Type} (u : Chars) (caps : List (Chars × π))
    (E : List (Chars × RegEntry π)) (q : Chars) :
    q ∈ (newEntries u caps E).map Prod.fst ↔
      (alookup E q = none ∧ ∃ c ∈ caps, addPrefix u c.1 = q) := by
  induction caps generalizing E with
  | nil =>
      constructor
      · intro h
        exact absurd h (List.not_mem_nil q)
      · rintro ⟨-, c, hc, -⟩
        exact absurd hc (List.not_mem_nil c)
  | cons c caps ih =>
      obtain ⟨n, pl⟩ := c
      cases hE' : alookup E (addPrefix u n) with
      | some w =>
          simp only [newEntries, hE']
          rw [ih]
          constructor
          · rintro ⟨hq, c', hc', hpc⟩
            exact ⟨hq, c', List.mem_cons_of_mem _ hc', hpc⟩
          · rintro ⟨hq, c', hc', hpc⟩
            rcases List.mem_cons.mp hc' with h | h
            · exfalso
              subst h
              have hpc' : addPrefix u n = q := hpc
              rw [← hpc'] at hq
              rw [hE'] at hq
              exact Option.noConfusion hq
            · exact ⟨hq, c', h, hpc⟩
      | none =>
          simp only [newEntries, hE', List.map_cons, List.mem_cons]
          by_cases hpq : addPrefix u n = q
          · constructor
            · intro _
              constructor
              · rw [← hpq]; exact hE'
              · exact ⟨(n, pl), Or.inl rfl, hpq⟩
            · intro _
              exact Or.inl hpq.symm
          · rw [ih, alookup_aset, if_neg hpq]
            constructor
            · rintro (hq | ⟨hq, c', hc', hpc⟩)
              · exact absurd hq.symm hpq
              · exact ⟨hq, c', Or.inr hc', hpc⟩
            · rintro ⟨hq, c', hc' | hc', hpc⟩
              · exfalso
                subst hc'
                exact hpq hpc
              · exact Or.inr ⟨hq, c', hc', hpc⟩

theorem clearServer_entries_alookup {π : Type} (st : Registry π) (u p : Chars)
    (hwf : WF st) :
    alookup (clearServerCaps st u).entries p =
      match alookup st.entries p with
      | some r => if r.serverName = u then none else some r
      | none => none := by
  cases hidx : alookup st.serverIndex u with
  | none =>
      simp only [clearServerCaps, hidx]
      cases hE : alookup st.entries p with
      | none => rfl
      | some r =>
          have hru : ¬(r.serverName = u) := by
            intro h
            obtain ⟨ns, hns, -⟩ := hwf.ownerListed p r hE
            rw [h, hidx] at hns
            exact Option.noConfusion hns
          simp [hru]
  | some names =>
      simp only [clearServerCaps, hidx]
      rw [alookup_foldl_aerase names st.entries p hwf.entriesNodup]
      cases hE : alookup st.entries p with
      | none => by_cases hmem : p ∈ names <;> simp [hmem]
      | some r =>
          by_cases hmem : p ∈ names
          · have hru : r.serverName = u :=
              hwf.listedOwner u names p r hidx hmem hE
            simp [hmem, hru]
          · have hru : ¬(r.serverName = u) := by
              intro h
              obtain ⟨ns, hns, hpns⟩ := hwf.ownerListed p r hE
              rw [h, hidx] at hns
              cases hns
              exact hmem hpns
            simp [hmem, hru]

theorem clearServer_index_alookup {π : Type} (st : Registry π) (u v : Chars)
    (hwf : WF st) :
    alookup (clearServerCaps st u).serverIndex v =
      if v = u then none else alookup st.serverIndex v := by
  cases hidx : alookup st.serverIndex u with
  | none =>
      simp only [clearServerCaps, hidx]
      by_cases hv : v = u
      · rw [if_pos hv, hv, hidx]
      · rw [if_neg hv]
  | some names =>
      simp only [clearServerCaps, hidx]
      exact alookup_aerase st.serverIndex u v hwf.indexNodup

theorem registerCaps_entries_alookup {π : Type} (st : Registry π) (u : Chars)
    (caps : List (Chars × π)) (p : Chars) (hwf : WF st) :
    alookup (registerCaps st u caps).entries p =
      match alookup st.entries p with
      | some r => if r.serverName = u then firstCap u caps p else some r
      | none => firstCap u caps p := by
  show alookup (registerLoop u caps (clearServerCaps st u).entries []).1 p = _
  rw [registerLoop_fst_alookup, clearServer_entries_alookup st u p hwf]
  cases hE : alookup st.entries p with
  | none => rfl
  | some r => by_cases hru : r.serverName = u <;> simp [hru]

theorem registerCaps_index_alookup {π : Type} (st : Registry π) (u : Chars)
    (caps : List (Chars × π)) (v : Chars) (hwf : WF st) :
    alookup (registerCaps st u caps).serverIndex v =
      if v = u then
        some ((newEntries u caps (clearServerCaps st u).entries).map Prod.fst)
      else alookup st.serverIndex v := by
  have hN : ∀ q ∈ ([] : List Chars),
      (alookup (clearServerCaps st u).entries q).isSome = true := by
    intro q hq
    exact absurd hq (List.not_mem_nil q)
  have hspec := registerLoop_spec u caps (clearServerCaps st u).entries [] hN
  show alookup (aset (clearServerCaps st u).serverIndex u
    (registerLoop u caps (clearServerCaps st u).entries []).2) v = _
  rw [hspec]
  simp only [List.nil_append]
  rw [alookup_aset]
  by_cases hv : v = u
  · rw [if_pos hv, if_pos (hv ▸ rfl : u = v)]
  · rw [if_neg hv, if_neg (fun h : u = v => hv h.symm)]
    rw [clearServer_index_alookup st u v hwf, if_neg hv]

theorem registerCaps_replace {π : Type} (st : Registry π) (u : Chars)
    (caps : List (Chars × π)) (p : Chars) (hwf : WF st) :
    (∀ r, alookup st.entries p = some r → r.serverName ≠ u →
        alookup (registerCaps st u caps).entries p = some r) ∧
    ((∀ r, alookup st.entries p = some r → r.serverName = u) →
        alookup (registerCaps st u caps).entries p = firstCap u caps p) := by
  have h := registerCaps_entries_alookup st u caps p hwf
  constructor
  · intro r hr hne
    rw [h, hr]
    simp [hne]
  · intro hall
    rw [h]
    cases hE : alookup st.entries p with
    | none => rfl
    | some r => simp [hall r hE]

theorem foldl_aerase_append {β : Type} (E Δ : List (Chars × β))
    (h : ∀ q ∈ Δ.map Prod.fst, alookup E q = none) :
    (Δ.map Prod.fst).foldl (fun m p => aerase m p) (E ++ Δ) = E := by
  induction Δ generalizing E with
  | nil => simp only [List.map_nil, List.foldl_nil, List.append_nil]
  | cons qv Δ ih =>
      obtain ⟨q, v⟩ := qv
      simp only [List.map_cons, List.foldl_cons]
      have hq : alookup E q = none :=
        h q (by rw [List.map_cons]; exact List.mem_cons_self _ _)
      rw [aerase_append_of_absent E Δ q v hq]
      apply ih
      intro q' hq'
      exact h q' (by rw [List.map_cons]; exact List.mem_cons_of_mem _ hq')

theorem clearServerCaps_of_lookup {π : Type} (st : Registry π) (u : Chars)
    (names : List Chars) (h : alookup st.serverIndex u = some names) :
    clearServerCaps st u =
      { entries := names.foldl (fun m p => aerase m p) st.entries
        serverIndex := aerase st.serverIndex u } := by
  unfold clearServerCaps
  rw [h]

theorem registerCaps_idem {π : Type} (st : Registry π) (u : Chars)
    (caps : List (Chars × π)) (hwf : WF st) :
    registerCaps (registerCaps st u caps) u caps = registerCaps st u caps := by
  have hN : ∀ q ∈ ([] : List Chars),
      (alookup (clearServerCaps st u).entries q).isSome = true := by
    intro q hq
    exact absurd hq (List.not_mem_nil q)
  have hloop := registerLoop_spec u caps (clearServerCaps st u).entries [] hN
  have hA : registerCaps st u caps =
      ⟨(clearServerCaps st u).entries
          ++ newEntries u caps (clearServerCaps st u).entries,
        aset (clearServerCaps st u).serverIndex u
          ((newEntries u caps (clearServerCaps st u).entries).map Prod.fst)⟩ := by
    show (⟨(registerLoop u caps (clearServerCaps st u).entries []).1,
      aset (clearServerCaps st u).serverIndex u
        (registerLoop u caps (clearServerCaps st u).entries []).2⟩ : Registry π) = _
    rw [hloop]
    rfl
  have hu_none : alookup (clearServerCaps st u).serverIndex u = none := by
    have h := clearServer_index_alookup st u u hwf
    rw [if_pos rfl] at h
    exact h
  have hAidx : alookup (registerCaps st u caps).serverIndex u =
      some ((newEntries u caps (clearServerCaps st u).entries).map Prod.fst) := by
    rw [hA, alookup_aset, if_pos rfl]
  have hfresh := newEntries_fresh u caps (clearServerCaps st u).entries
  have herase : ((newEntries u caps (clearServerCaps st u).entries).map
      Prod.fst).foldl (fun m p => aerase m p)
      (registerCaps st u caps).entries = (clearServerCaps st u).entries := by
    rw [hA]
    exact foldl_aerase_append _ _ hfresh
  have hidx : aerase (registerCaps st u caps).serverIndex u =
      (clearServerCaps st u).serverIndex := by
    rw [hA]
    have hset : aset (clearServerCaps st u).serverIndex u
        ((newEntries u caps (clearServerCaps st u).entries).map Prod.fst) =
        (clearServerCaps st u).serverIndex
          ++ [(u, (newEntries u caps (clearServerCaps st u).entries).map
                Prod.fst)] :=
      aset_fresh _ _ _ hu_none
    rw [hset]
    have h := aerase_append_of_absent (clearServerCaps st u).serverIndex []
      u ((newEntries u caps (clearServerCaps st u).entries).map Prod.fst)
      hu_none
    simpa using h
  have hclearA : clearServerCaps (registerCaps st u caps) u =
      clearServerCaps st u := by
    rw [clearServerCaps_of_lookup _ _ _ hAidx, herase, hidx]
  show (⟨(registerLoop u caps
        (clearServerCaps (registerCaps st u caps) u).entries []).1,
      aset (clearServerCaps (registerCaps st u caps) u).serverIndex u
        (registerLoop u caps
          (clearServerCaps (registerCaps st u caps) u).entries []).2⟩ :
      Registry π) = registerCaps st u caps
  rw [hclearA]
  rfl

/-- C2: `registerTools(u, T)` — and the analogous `registerResources` and
`registerPrompts` — replaces the upstream's prior set: every entry owned by a
different upstream before the call is still queryable unchanged afterwards,
and at any prefixed id not blocked by a different owner the registry
afterwards holds exactly the record of the first element of `T` with that
prefixed id (so `u`'s previous entries are gone, each tool of `T` is
inserted under its prefixed id, and a new entry colliding with a
pre-existing entry of a different upstream is dropped while the pre-existing
one wins). -/
theorem claim_c2_register_replaces :
    (∀ (st : Registry ToolPayload) (u : Chars)
        (T : List (Chars × ToolPayload)) (p : Chars), WF st →
      (∀ r, alookup st.entries p = some r → r.serverName ≠ u →
          alookup (registerTools st u T).entries p = some r) ∧
      ((∀ r, alookup st.entries p = some r → r.serverName = u) →
          alookup (registerTools st u T).entries p = firstCap u T p)) ∧
    (∀ (st : Registry ResourcePayload) (u : Chars)
        (T : List (Chars × ResourcePayload)) (p : Chars), WF st →
      (∀ r, alookup st.entries p = some r → r.serverName ≠ u →
          alookup (registerResources st u T).entries p = some r) ∧
      ((∀ r, alookup st.entries p = some r → r.serverName = u) →
          alookup (registerResources st u T).entries p = firstCap u T p)) ∧
    (∀ (st : Registry PromptPayload) (u : Chars)
        (T : List (Chars × PromptPayload)) (p : Chars), WF st →
      (∀ r, alookup st.entries p = some r → r.serverName ≠ u →
          alookup (registerPrompts st u T).entries p = some r) ∧
      ((∀ r, alookup st.entries p = some r → r.serverName = u) →
          alookup (registerPrompts st u T).entries p = firstCap u T p)) :=
  ⟨fun st u T p hwf => registerCaps_replace st u T p hwf,
    fun st u T p hwf => registerCaps_replace st u T p hwf,
    fun st u T p hwf => registerCaps_replace st u T p hwf⟩

/-- C2 witness: registering one tool, one resource and one prompt into empty
registries makes each queryable under its prefixed id. -/
theorem claim_c2_register_replaces_witness :
    alookup (registerTools Registry.empty ['s']
        [(['t'], sampleToolPayload)]).entries (addPrefix ['s'] ['t']) =
      some ⟨['s'], ['t'], addPrefix ['s'] ['t'], sampleToolPayload⟩ ∧
    alookup (registerResources Registry.empty ['s']
        [(['r'], sampleResourcePayload)]).entries (addPrefix ['s'] ['r']) =
      some ⟨['s'], ['r'], addPrefix ['s'] ['r'], sampleResourcePayload⟩ ∧
    alookup (registerPrompts Registry.empty ['s']
        [(['p'], samplePromptPayload)]).entries (addPrefix ['s'] ['p']) =
      some ⟨['s'], ['p'], addPrefix ['s'] ['p'], samplePromptPayload⟩ := by
  refine ⟨?_, ?_, ?_⟩
  · have h := (claim_c2_register_replaces.1 Registry.empty ['s']
      [(['t'], sampleToolPayload)] (addPrefix ['s'] ['t']) wf_empty).2
      (fun r hr => Option.noConfusion hr)
    rw [h]
    decide
  · have h := (claim_c2_register_replaces.2.1 Registry.empty ['s']
      [(['r'], sampleResourcePayload)] (addPrefix ['s'] ['r']) wf_empty).2
      (fun r hr => Option.noConfusion hr)
    rw [h]
    decide
  · have h := (claim_c2_register_replaces.2.2 Registry.empty ['s']
      [(['p'], samplePromptPayload)] (addPrefix ['s'] ['p']) wf_empty).2
      (fun r hr => Option.noConfusion hr)
    rw [h]
    decide

/-- C9: calling `registerTools(u, T)` twice in immediate succession leaves
the registry — forward map and reverse index, entries of other upstreams
included — in exactly the same state as a single call. -/
theorem claim_c9_register_idempotent (st : Registry ToolPayload) (u : Chars)
    (T : List (Chars × ToolPayload)) (hwf : WF st) :
    registerTools (registerTools st u T) u T = registerTools st u T :=
  registerCaps_idem st u T hwf

/-- C9 witness: the idempotence at a concrete registry and tool list. -/
theorem claim_c9_register_idempotent_witness :
    registerTools (registerTools Registry.empty ['s']
        [(['t'], sampleToolPayload), (['u'], sampleToolPayload2)]) ['s']
        [(['t'], sampleToolPayload), (['u'], sampleToolPayload2)] =
      registerTools Registry.empty ['s']
        [(['t'], sampleToolPayload), (['u'], sampleToolPayload2)] :=
  claim_c9_register_idempotent Registry.empty ['s']
    [(['t'], sampleToolPayload), (['u'], sampleToolPayload2)] wf_empty

/-- C10: within one `registerTools(u, T)` call, when several elements of `T`
share a prefixed id only the first occurrence is inserted (the same skip
branch that drops cross-upstream collisions drops the later duplicates), and
the reverse-index set recorded for `u` lists exactly the distinct non-blocked
prefixed ids actually inserted — so `getServerToolCount(u)` counts those,
not the length of `T`. -/
theorem claim_c10_duplicate_drop (st : Registry ToolPayload) (u : Chars)
    (T : List (Chars × ToolPayload)) (hwf : WF st) :
    (∀ p, (∀ r, alookup st.entries p = some r → r.serverName = u) →
        alookup (registerTools st u T).entries p = firstCap u T p) ∧
    alookup (registerTools st u T).serverIndex u =
      some ((newEntries u T (clearServerCaps st u).entries).map Prod.fst) ∧
    ((newEntries u T (clearServerCaps st u).entries).map Prod.fst).Nodup ∧
    (∀ q, q ∈ (newEntries u T (clearServerCaps st u).entries).map Prod.fst ↔
        (alookup (clearServerCaps st u).entries q = none ∧
          ∃ c ∈ T, addPrefix u c.1 = q)) ∧
    getServerToolCount (registerTools st u T) u =
      ((newEntries u T (clearServerCaps st u).entries).map Prod.fst).length := by
  have hidx := registerCaps_index_alookup st u T u hwf
  rw [if_pos rfl] at hidx
  refine ⟨?_, hidx, newEntries_keys_nodup u T _, ?_, ?_⟩
  · intro p hall
    exact (registerCaps_replace st u T p hwf).2 hall
  · intro q
    exact newEntries_mem_iff u T _ q
  · have hidx' : alookup (registerTools st u T).serverIndex u =
        some ((newEntries u T (clearServerCaps st u).entries).map Prod.fst) :=
      hidx
    show getServerCapCount (registerTools st u T) u = _
    unfold getServerCapCount
    rw [hidx']

/-- C10 witness: registering twice the same tool name under one upstream
keeps only the first record and counts one tool, not two. -/
theorem claim_c10_duplicate_drop_witness :
    alookup (registerTools Registry.empty ['s']
        [(['t'], sampleToolPayload), (['t'], sampleToolPayload2)]).entries
        (addPrefix ['s'] ['t']) =
      some ⟨['s'], ['t'], addPrefix ['s'] ['t'], sampleToolPayload⟩ ∧
    getServerToolCount (registerTools Registry.empty ['s']
        [(['t'], sampleToolPayload), (['t'], sampleToolPayload2)]) ['s'] = 1 := by
  have h := claim_c10_duplicate_drop Registry.empty ['s']
    [(['t'], sampleToolPayload), (['t'], sampleToolPayload2)] wf_empty
  constructor
  · rw [h.1 (addPrefix ['s'] ['t']) (fun r hr => Option.noConfusion hr)]
    decide
  · rw [h.2.2.2.2]
    decide

/-! ## C3: the two notFound causes are indistinguishable -/

theorem routeToolCall_eq_none {π : Type} (env : RouterEnv π) (name : Chars)
    (h : alookup env.registry.entries name = none ∨
      ∃ s o, removePrefix name = some (s, o) ∧
        (alookup env.connectors s = none ∨
          alookup env.connectors s = some false)) :
    routeToolCall env name = none := by
  unfold routeToolCall
  cases hparse : removePrefix name with
  | none => rfl
  | some so =>
      obtain ⟨s, o⟩ := so
      cases hreg : alookup env.registry.entries name with
      | none => rfl
      | some r =>
          rcases h with h | ⟨s', o', hso, hc⟩
          · rw [h] at hreg
            exact Option.noConfusion hreg
          · rw [hparse] at hso
            injection hso with hso'
            have hs : s = s' := congrArg Prod.fst hso'
            subst hs
            show (match alookup env.connectors s with
              | none => none
              | some isConn =>
                  if isConn = true then some (s, o) else none) = none
            rcases hc with hc | hc <;> simp [hc]

/-- C3: a tools/call whose prefixed name is absent from the tool registry
and one whose owning upstream's connector is absent or not connected receive
the identical JSON-RPC failure: code `-32601` with message
`Tool not found or server unavailable: <name>` — the causes are
indistinguishable to the client. -/
theorem claim_c3_notfound_indistinguishable {π : Type} (env : RouterEnv π)
    (name : Chars)
    (h : alookup env.registry.entries name = none ∨
      ∃ s o, removePrefix name = some (s, o) ∧
        (alookup env.connectors s = none ∨
          alookup env.connectors s = some false)) :
    handleToolCall env name =
      RouteOutcome.rpcError (-32601) (toolNotFoundMessage name) := by
  unfold handleToolCall
  rw [routeToolCall_eq_none env name h]

/-- C3 witness: an unknown prefixed name on an empty registry and a
registered tool whose upstream connector is disconnected both produce the
same `-32601` reply. -/
theorem claim_c3_notfound_witness :
    handleToolCall (⟨Registry.empty, []⟩ : RouterEnv ToolPayload)
        ("nope___x".data) =
      RouteOutcome.rpcError (-32601) (toolNotFoundMessage ("nope___x".data)) ∧
    handleToolCall
        (⟨⟨[(addPrefix ['a'] ['x'],
              ⟨['a'], ['x'], addPrefix ['a'] ['x'], sampleToolPayload⟩)],
            [(['a'], [addPrefix ['a'] ['x']])]⟩,
          [(['a'], false)]⟩ : RouterEnv ToolPayload)
        (addPrefix ['a'] ['x']) =
      RouteOutcome.rpcError (-32601)
        (toolNotFoundMessage (addPrefix ['a'] ['x'])) := by
  constructor
  · exact claim_c3_notfound_indistinguishable _ _ (Or.inl rfl)
  · exact claim_c3_notfound_indistinguishable _ _
      (Or.inr ⟨['a'], ['x'], by decide, Or.inr (by decide)⟩)

/-! ## C4: upstream transport failures on tools/call -/

/-- C4 (amended): in the `McpHubServer` tools/call handlers a failed
upstream send returns the result
`{isError: true, content: [{type:"text", text:"Upstream error: <msg>"}]}`
and never a thrown (JSON-RPC) error; in the `McpHub` handler of `main.ts`,
however, the failure propagates out of the handler as a thrown error, which
the SDK surfaces as a JSON-RPC error rather than an `isError` result. -/
theorem claim_c4_upstream_error_shape :
    (∀ message : Chars,
      mcpHubServerToolForward (SendOutcome.fail message) =
        Except.ok (upstreamErrorResult message)) ∧
    (∀ message : Chars,
      mcpHubToolForward (SendOutcome.fail message) = Except.error message) :=
  ⟨fun _ => rfl, fun _ => rfl⟩

/-- C4 counterexample: in the `main.ts` handler — one of the claim's cited
call sites — a failing send yields a propagated error, not the
`{isError: true, ...}` result the claim promises for every invocation. -/
theorem claim_c4_counterexample :
    mcpHubToolForward (SendOutcome.fail ("boom".data)) =
      Except.error ("boom".data) ∧
    mcpHubToolForward (SendOutcome.fail ("boom".data)) ≠
      Except.ok (upstreamErrorResult ("boom".data)) := by
  refine ⟨rfl, ?_⟩
  intro h
  exact Except.noConfusion h

/-! ## C5 and C6: the `/mcp` session handler -/

/-- C5 (amended): a `/mcp` request carrying a session id that is not in the
session table receives the JSON-RPC error `-32602` (invalid session id) and
no session is created; but a request with a *missing* `mcp-session-id`
header — initialize or not, since the body is never inspected — always
creates a new session instead of failing. -/
theorem claim_c5_invalid_session (table : List Chars) (freshId : Chars)
    (req : HttpRequestM) (sid : Chars) :
    (req.sessionIdHeader = some sid → sid ∉ table →
      handleMcpEndpoint table freshId req =
        ⟨McpHttpResponse.invalidSession (-32602) (invalidSessionMessage sid),
          table, none, none⟩) ∧
    (req.sessionIdHeader = none →
      (handleMcpEndpoint table freshId req).newSession = some freshId ∧
      (handleMcpEndpoint table freshId req).response =
        McpHttpResponse.handled freshId) := by
  constructor
  · intro hhdr hmem
    simp [handleMcpEndpoint, isInitReq, hhdr, hmem]
  · intro hhdr
    constructor <;>
      simp [handleMcpEndpoint, isInitReq, hhdr, mem_setAdd_self table freshId]

/-- C5 witness: an unknown session id is rejected with `-32602` and the
table is unchanged; a request without the header gets a fresh session. -/
theorem claim_c5_invalid_session_witness :
    handleMcpEndpoint ["s1".data] ("s2".data)
        ⟨HttpMethod.post, some ("sX".data), "tools/list".data⟩ =
      ⟨McpHttpResponse.invalidSession (-32602)
          (invalidSessionMessage ("sX".data)),
        ["s1".data], none, none⟩ ∧
    (handleMcpEndpoint [] ("s2".data)
        ⟨HttpMethod.post, none, "tools/list".data⟩).newSession =
      some ("s2".data) := by
  constructor
  · exact (claim_c5_invalid_session ["s1".data] ("s2".data)
      ⟨HttpMethod.post, some ("sX".data), "tools/list".data⟩
      ("sX".data)).1 rfl (by decide)
  · exact ((claim_c5_invalid_session [] ("s2".data)
      ⟨HttpMethod.post, none, "tools/list".data⟩ []).2 rfl).1

/-- C5 counterexample: a non-initialize POST (`tools/list` body) with no
session-id header does not produce `-32602` — the handler creates and uses a
brand-new session. -/
theorem claim_c5_counterexample :
    handleMcpEndpoint [] ("s1".data)
        ⟨HttpMethod.post, none, "tools/list".data⟩ =
      ⟨McpHttpResponse.handled ("s1".data), ["s1".data], some ("s1".data),
        some ("s1".data)⟩ := by
  decide

/-- C6 (amended): a POST to `/mcp` without a session id — in particular an
initialize — always creates a new session and returns its id in the
`mcp-session-id` response header; but an initialize carrying an existing
session id is served on that same session: no new session and no new id are
produced, because the handler never inspects the body. -/
theorem claim_c6_session_creation (table : List Chars) (freshId : Chars)
    (req : HttpRequestM) :
    (req.sessionIdHeader = none → req.method = HttpMethod.post →
      (handleMcpEndpoint table freshId req).newSession = some freshId ∧
      (handleMcpEndpoint table freshId req).responseSessionHeader =
        some freshId ∧
      (handleMcpEndpoint table freshId req).response =
        McpHttpResponse.handled freshId) ∧
    (∀ sid, req.sessionIdHeader = some sid → sid ∈ table →
      (handleMcpEndpoint table freshId req).response =
        McpHttpResponse.handled sid ∧
      (handleMcpEndpoint table freshId req).newSession = none ∧
      (handleMcpEndpoint table freshId req).sessions = table) := by
  constructor
  · intro hhdr _
    refine ⟨?_, ?_, ?_⟩ <;>
      simp [handleMcpEndpoint, isInitReq, hhdr, mem_setAdd_self table freshId]
  · intro sid hhdr hmem
    refine ⟨?_, ?_, ?_⟩ <;>
      simp [handleMcpEndpoint, isInitReq, hhdr, hmem]

/-- C6 witness: an initialize without a session id creates a session and
echoes its id; an initialize with a known session id is served on it. -/
theorem claim_c6_session_creation_witness :
    ((handleMcpEndpoint [] ("s1".data)
        ⟨HttpMethod.post, none, "initialize".data⟩).newSession =
      some ("s1".data) ∧
    (handleMcpEndpoint [] ("s1".data)
        ⟨HttpMethod.post, none, "initialize".data⟩).responseSessionHeader =
      some ("s1".data) ∧
    (handleMcpEndpoint [] ("s1".data)
        ⟨HttpMethod.post, none, "initialize".data⟩).response =
      McpHttpResponse.handled ("s1".data)) ∧
    (handleMcpEndpoint ["s0".data] ("s1".data)
        ⟨HttpMethod.post, some ("s0".data), "initialize".data⟩).response =
      McpHttpResponse.handled ("s0".data) := by
  constructor
  · exact (claim_c6_session_creation [] ("s1".data)
      ⟨HttpMethod.post, none, "initialize".data⟩).1 rfl rfl
  · exact ((claim_c6_session_creation ["s0".data] ("s1".data)
      ⟨HttpMethod.post, some ("s0".data), "initialize".data⟩).2
      ("s0".data) rfl (by decide)).1

/-- C6 counterexample: an initialize carrying the existing session id `s1`
reuses that session — no new session is created and no new id is returned —
contrary to the claim that it produces a new session with a new id. -/
theorem claim_c6_counterexample :
    handleMcpEndpoint ["s1".data] ("s2".data)
        ⟨HttpMethod.post, some ("s1".data), "initialize".data⟩ =
      ⟨McpHttpResponse.handled ("s1".data), ["s1".data], none, none⟩ := by
  decide

/-! ## C7: per-category discovery failure isolation -/

/-- C7: `discoverCapabilities` settles all three category requests and
assembles the result from all of them; when exactly one category fails, the
result holds the empty list for that category only, and the other two hold
their discovered entries. -/
theorem claim_c7_discovery_isolation
    (toolsSend : SendOutcome (List RawTool))
    (resourcesSend : SendOutcome (List MCPResourceM))
    (promptsSend : SendOutcome (List RawPrompt)) :
    (∀ e rs ps, toolsSend = SendOutcome.fail e →
      resourcesSend = SendOutcome.ok rs → promptsSend = SendOutcome.ok ps →
      discoverCapabilitiesM toolsSend resourcesSend promptsSend =
        ⟨[], rs, ps.map fun p => ⟨p.name, p.description,
          p.arguments.getD []⟩⟩) ∧
    (∀ ts e ps, toolsSend = SendOutcome.ok ts →
      resourcesSend = SendOutcome.fail e → promptsSend = SendOutcome.ok ps →
      discoverCapabilitiesM toolsSend resourcesSend promptsSend =
        ⟨ts.map normalizeTool, [], ps.map fun p => ⟨p.name, p.description,
          p.arguments.getD []⟩⟩) ∧
    (∀ ts rs e, toolsSend = SendOutcome.ok ts →
      resourcesSend = SendOutcome.ok rs → promptsSend = SendOutcome.fail e →
      discoverCapabilitiesM toolsSend resourcesSend promptsSend =
        ⟨ts.map normalizeTool, rs, []⟩) := by
  refine ⟨?_, ?_, ?_⟩ <;>
    · intro a b c h1 h2 h3
      subst h1
      subst h2
      subst h3
      rfl

/-- C7 witness: a failing tools/list with succeeding resources/list and
prompts/list yields empty tools and the discovered resources and prompts. -/
theorem claim_c7_discovery_isolation_witness :
    discoverCapabilitiesM (SendOutcome.fail ("x".data))
        (SendOutcome.ok [⟨"u".data, "r".data, none, none⟩])
        (SendOutcome.ok [⟨"p".data, none, none⟩]) =
      ⟨[], [⟨"u".data, "r".data, none, none⟩], [⟨"p".data, none, []⟩]⟩ :=
  (claim_c7_discovery_isolation _ _ _).1 _ _ _ rfl rfl rfl

/-! ## C8: at most one pending reconnect timer; removal race -/

theorem countOcc_append (l₁ l₂ : List Chars) (x : Chars) :
    countOcc (l₁ ++ l₂) x = countOcc l₁ x + countOcc l₂ x := by
  induction l₁ with
  | nil => simp [countOcc]
  | cons c l ih => simp [countOcc, ih, Nat.add_assoc]

theorem countOcc_eq_zero (l : List Chars) (x : Chars) (h : x ∉ l) :
    countOcc l x = 0 := by
  induction l with
  | nil => rfl
  | cons c l ih =>
      have hc : ¬(c = x) := fun hh => h (hh ▸ List.mem_cons_self c l)
      have hl : x ∉ l := fun hh => h (List.mem_cons_of_mem c hh)
      simp [countOcc, hc, ih hl]

/-- C8: scheduling a reconnection while a timer for that upstream is pending
is a no-op, so an upstream never holds more than one pending timer; and when
the timer fires for an upstream that no longer exists in the manager's
tables, it removes its pending entry and skips silently instead of
attempting to connect. -/
theorem claim_c8_reconnect_timer (st : ManagerState) (name : Chars) :
    (name ∈ st.reconnectTimeouts → scheduleReconnection st name = st) ∧
    (countOcc st.reconnectTimeouts name ≤ 1 →
      countOcc (scheduleReconnection st name).reconnectTimeouts name ≤ 1) ∧
    ((name ∉ st.connectors ∨ name ∉ st.connections) →
      fireReconnectTimer st name =
        ({ st with reconnectTimeouts := listErase st.reconnectTimeouts name },
          ReconnectAction.skipRemoved)) := by
  refine ⟨?_, ?_, ?_⟩
  · intro hmem
    simp [scheduleReconnection, hmem]
  · intro hcount
    by_cases hmem : name ∈ st.reconnectTimeouts
    · simpa [scheduleReconnection, hmem] using hcount
    · simp [scheduleReconnection, hmem, countOcc_append,
        countOcc_eq_zero st.reconnectTimeouts name hmem, countOcc]
  · intro hd
    unfold fireReconnectTimer
    rw [if_neg]
    intro hand
    rcases hd with hd | hd
    · exact hd hand.1
    · exact hd hand.2

/-- C8 witness: re-scheduling while pending changes nothing, and a timer
firing for a removed upstream clears its entry and skips. -/
theorem claim_c8_reconnect_timer_witness :
    scheduleReconnection ⟨[], [], ["a".data]⟩ ("a".data) =
      ⟨[], [], ["a".data]⟩ ∧
    fireReconnectTimer ⟨[], [], ["a".data]⟩ ("a".data) =
      (⟨[], [], []⟩, ReconnectAction.skipRemoved) := by
  constructor
  · exact (claim_c8_reconnect_timer ⟨[], [], ["a".data]⟩ ("a".data)).1
      (by decide)
  · have h := (claim_c8_reconnect_timer ⟨[], [], ["a".data]⟩
      ("a".data)).2.2 (Or.inl (by decide))
    rw [h]
    decide

end OneMcp
